import Mathlib

/-!
# FastMatch — verification of the resume parsing/customization core

Shallow embedding of the FastMatch backend (Python) in Lean 4, covering:

* the JSON/Python dynamic value model (`PyVal`) used by the LLM response
  mapping code,
* `map_llm_response_to_parsed_data`
  (`app/features/resumes/parsing/utils.py`),
* the Gemini client's `_clean_json_response` sanitizer
  (`app/integrations/llm/client.py`),
* `FileExtractorClient.extract` (`app/integrations/file_extractors/client.py`),
* `ResumeService.create_base_resume_from_upload` and
  `ResumeService.create_custom_version` (`app/features/resumes/service.py`),
* `ResumeRepository.create_version`
  (`app/features/resumes/persistence/repository.py`).

External collaborators (file storage, the generative backend, the ORM
session) are modelled as oracle parameters; the I/O outcome of each
collaborator call is an explicit argument, and side effects are recorded
as explicit events/states in the return value.
-/

namespace FastMatch

/-! ## Python/JSON dynamic values

Values produced by `json.loads` and manipulated dynamically by the Python
code.  Floating point numbers are not modelled (no claim depends on
them); JSON numbers appear as `pyint`.
-/

inductive PyVal where
  | pynone
  | pybool (b : Bool)
  | pyint (n : Int)
  | pystr (s : String)
  | pylist (xs : List PyVal)
  | pydict (kvs : List (String × PyVal))

/-- Python truthiness (`bool(v)`) for the modelled values. -/
def PyVal.truthy : PyVal → Bool
  | .pynone => false
  | .pybool b => b
  | .pyint n => n != 0
  | .pystr s => !s.isEmpty
  | .pylist xs => !xs.isEmpty
  | .pydict kvs => !kvs.isEmpty

/-- First-key association lookup (Python dict keys are unique, so the
first match is the match). -/
def lookupKey (kvs : List (String × PyVal)) (k : String) : Option PyVal :=
  match kvs with
  | [] => Option.none
  | (k', v) :: rest => if k' = k then some v else lookupKey rest k

/-- Python `d.get(k)` on a dict: the stored value, or `None` when the key
is absent. -/
def dictGet (kvs : List (String × PyVal)) (k : String) : PyVal :=
  (lookupKey kvs k).getD .pynone

/-- `d.get(k, default)` with an explicit default. -/
def dictGetD (kvs : List (String × PyVal)) (k : String) (d : PyVal) : PyVal :=
  (lookupKey kvs k).getD d

/-! ## Domain models

Modelled from the spec: `app/features/resumes/models.py` (the `Section`,
`ParsedResumeData` and `BaseResume` classes imported by the
`features/resumes` code) is not among the provided sources; only its
superseded dataclass variant (`app/modules/resumes/domain.py`) is.
Following the spec §3 and §4.3 step 5, a `Section`'s `title`/`content`/
`raw_content` hold the LLM's values verbatim, with an absent key stored
as null (which matches the plain-dataclass variant, where construction
performs no runtime validation), and `order` is the zero-based array
index assigned by the mapper. -/
structure Section where
  title : PyVal
  content : PyVal
  raw_content : PyVal
  order : Nat

/-- Modelled from the spec (see `Section`): result of one parsing pass;
`meta` retains the unprocessed LLM response under the `llm_raw` key. -/
structure ParsedResumeData where
  raw_text : String
  sections : List Section
  meta : List (String × PyVal)

/-- Modelled from the spec (see `Section`): the ingested artifact.  The
generated id and creation timestamp are not modelled (no claim depends
on them). -/
structure BaseResume where
  filename : String
  content_type : String
  file_path : String
  parsed_data : Option ParsedResumeData

/-! ## `map_llm_response_to_parsed_data`
(`app/features/resumes/parsing/utils.py`, lines 66–115) -/

/-- The `for idx, item in enumerate(sections_data)` loop: a non-dict item
is skipped (with a log warning), a dict item becomes a `Section` whose
`order` is the item's array index. -/
def buildSections (idx : Nat) : List PyVal → List Section
  | [] => []
  | item :: rest =>
    match item with
    | .pydict kvs =>
        { title := dictGet kvs "title"
          content := dictGet kvs "content"
          raw_content := dictGet kvs "raw_content"
          order := idx } :: buildSections (idx + 1) rest
    | _ => buildSections (idx + 1) rest

/-- `map_llm_response_to_parsed_data(llm_response, raw_text)`.

A non-dict response raises `ValueError` (modelled as `.error`).  The
`sections` field is read with `llm_response.get("sections") or []`
(Python `or`: a falsy value degrades to the empty list); a non-list
value logs a warning and yields zero sections. -/
def map_llm_response_to_parsed_data (llm_response : PyVal) (raw_text : String) :
    Except String ParsedResumeData :=
  match llm_response with
  | .pydict kvs =>
    let got := dictGet kvs "sections"
    let sections_data := if got.truthy then got else PyVal.pylist []
    match sections_data with
    | .pylist xs =>
        .ok { raw_text := raw_text
              sections := buildSections 0 xs
              meta := [("llm_raw", PyVal.pydict kvs)] }
    | _ =>
        .ok { raw_text := raw_text
              sections := []
              meta := [("llm_raw", PyVal.pydict kvs)] }
  | _ => .error "LLM returned non-dict response for resume parsing"

/-! ### Lemmas about the mapper -/

/-- The `Section` the spec's §4.3 step 5 / P1 predicts for the array
element `(i, item)`: `order` is the array index `i` and the three fields
are the element's values read verbatim (absent key ⇒ null). -/
def specSection (p : Nat × PyVal) : Section :=
  match p.2 with
  | .pydict kvs =>
      { title := dictGet kvs "title"
        content := dictGet kvs "content"
        raw_content := dictGet kvs "raw_content"
        order := p.1 }
  | _ => { title := .pynone, content := .pynone,
           raw_content := .pynone, order := p.1 }

/-- On an all-dict list, the section loop maps each item to a `Section`
carrying its (offset) array index as `order` and the three fields read
verbatim by `dict.get`. -/
theorem buildSections_all_dicts (items : List PyVal) :
    ∀ idx, (∀ v ∈ items, ∃ d, v = PyVal.pydict d) →
    buildSections idx items = (items.enumFrom idx).map specSection := by
  induction items with
  | nil => intro idx _; rfl
  | cons hd tl ih =>
    intro idx h
    obtain ⟨d, hd_eq⟩ := h hd (List.mem_cons_self _ _)
    subst hd_eq
    simp only [buildSections, List.enumFrom, List.map, specSection]
    rw [ih (idx + 1) (fun v hv => h v (List.mem_cons_of_mem _ hv))]

theorem specSection_order (p : Nat × PyVal) : (specSection p).order = p.1 := by
  rcases p with ⟨i, v⟩; cases v <;> rfl

theorem enumFrom_map_specSection_order (items : List PyVal) :
    ∀ n, ((items.enumFrom n).map specSection).map Section.order =
      List.range' n items.length := by
  induction items with
  | nil => intro n; rfl
  | cons hd tl ih =>
    intro n
    simp only [List.enumFrom, List.map, List.length_cons, List.range',
      specSection_order]
    rw [ih (n + 1)]

/-- C1: for an LLM response that is a JSON object whose `sections` field
is an array of N JSON objects, the mapper returns a `ParsedDocument`
with exactly N sections in array order, the i-th having `order = i` and
`title`/`content`/`raw_content` copied verbatim (absent key ⇒ null). -/
theorem c1_parse_order_preservation
    (kvs : List (String × PyVal)) (items : List PyVal) (raw : String)
    (hsec : lookupKey kvs "sections" = some (.pylist items))
    (hdict : ∀ v ∈ items, ∃ d, v = PyVal.pydict d) :
    map_llm_response_to_parsed_data (.pydict kvs) raw =
      .ok { raw_text := raw
            sections := (items.enumFrom 0).map specSection
            meta := [("llm_raw", PyVal.pydict kvs)] }
    ∧ ((items.enumFrom 0).map specSection).length = items.length
    ∧ ((items.enumFrom 0).map specSection).map Section.order =
        List.range items.length := by
  refine ⟨?_, by simp [List.enumFrom_length], ?_⟩
  · have hget : dictGet kvs "sections" = .pylist items := by
      simp [dictGet, hsec]
    cases items with
    | nil =>
      simp [map_llm_response_to_parsed_data, hget, PyVal.truthy, buildSections,
        List.enumFrom]
    | cons hd tl =>
      simp only [map_llm_response_to_parsed_data, hget, PyVal.truthy,
        List.isEmpty_cons, Bool.not_false, if_true]
      rw [buildSections_all_dicts _ 0 hdict]
  · rw [enumFrom_map_specSection_order, List.range_eq_range']

/-- Concrete instantiation of `c1_parse_order_preservation`. -/
theorem c1_parse_order_preservation_witness :
    map_llm_response_to_parsed_data
        (.pydict [("sections",
          PyVal.pylist [PyVal.pydict [("title", PyVal.pystr "Experience")]])]) "r" =
      .ok { raw_text := "r"
            sections :=
              (([PyVal.pydict [("title", PyVal.pystr "Experience")]] :
                  List PyVal).enumFrom 0).map specSection
            meta := [("llm_raw", PyVal.pydict [("sections",
              PyVal.pylist [PyVal.pydict [("title", PyVal.pystr "Experience")]])])] }
    ∧ ((([PyVal.pydict [("title", PyVal.pystr "Experience")]] :
          List PyVal).enumFrom 0).map specSection).length = 1
    ∧ ((([PyVal.pydict [("title", PyVal.pystr "Experience")]] :
          List PyVal).enumFrom 0).map specSection).map Section.order =
        List.range 1 :=
  c1_parse_order_preservation
    [("sections", PyVal.pylist [PyVal.pydict [("title", PyVal.pystr "Experience")]])]
    [PyVal.pydict [("title", PyVal.pystr "Experience")]] "r"
    (by simp [lookupKey])
    (by
      intro v hv
      simp only [List.mem_singleton] at hv
      exact ⟨[("title", PyVal.pystr "Experience")], hv⟩)

/-- C7: a non-dict top-level response is a mapping error; a dict whose
`sections` key is absent, or present but not an array, maps to a
`ParsedDocument` with zero sections rather than an error. -/
theorem c7_top_level_strict_sections_lenient :
    (∀ (v : PyVal) (raw : String), (∀ kvs, v ≠ .pydict kvs) →
      map_llm_response_to_parsed_data v raw =
        .error "LLM returned non-dict response for resume parsing")
    ∧ (∀ (kvs : List (String × PyVal)) (raw : String),
        lookupKey kvs "sections" = Option.none →
        map_llm_response_to_parsed_data (.pydict kvs) raw =
          .ok { raw_text := raw, sections := [],
                meta := [("llm_raw", PyVal.pydict kvs)] })
    ∧ (∀ (kvs : List (String × PyVal)) (raw : String) (v : PyVal),
        lookupKey kvs "sections" = some v → (∀ xs, v ≠ .pylist xs) →
        map_llm_response_to_parsed_data (.pydict kvs) raw =
          .ok { raw_text := raw, sections := [],
                meta := [("llm_raw", PyVal.pydict kvs)] }) := by
  refine ⟨?_, ?_, ?_⟩
  · intro v raw hnd
    cases v with
    | pydict kvs => exact absurd rfl (hnd kvs)
    | _ => rfl
  · intro kvs raw hab
    simp [map_llm_response_to_parsed_data, dictGet, hab, PyVal.truthy,
      buildSections]
  · intro kvs raw v hsec hnl
    have hget : dictGet kvs "sections" = v := by simp [dictGet, hsec]
    cases v with
    | pylist xs => exact absurd rfl (hnl xs)
    | pybool b =>
      cases b <;>
        simp [map_llm_response_to_parsed_data, hget, PyVal.truthy, buildSections]
    | pyint n =>
      by_cases hn : n = 0 <;>
        simp [map_llm_response_to_parsed_data, hget, PyVal.truthy, hn,
          buildSections]
    | pystr s =>
      by_cases hs : s.isEmpty <;>
        simp [map_llm_response_to_parsed_data, hget, PyVal.truthy, hs,
          buildSections]
    | pydict d =>
      by_cases hd : d.isEmpty <;>
        simp [map_llm_response_to_parsed_data, hget, PyVal.truthy, hd,
          buildSections]
    | pynone =>
      simp [map_llm_response_to_parsed_data, hget, PyVal.truthy, buildSections]

/-- Concrete instantiation of `c7_top_level_strict_sections_lenient`. -/
theorem c7_top_level_strict_sections_lenient_witness :
    map_llm_response_to_parsed_data (.pystr "x") "r" =
      .error "LLM returned non-dict response for resume parsing"
    ∧ map_llm_response_to_parsed_data (.pydict []) "r" =
        .ok { raw_text := "r", sections := [], meta := [("llm_raw", PyVal.pydict [])] }
    ∧ map_llm_response_to_parsed_data (.pydict [("sections", .pyint 3)]) "r" =
        .ok { raw_text := "r", sections := [],
              meta := [("llm_raw", PyVal.pydict [("sections", .pyint 3)])] } :=
  ⟨c7_top_level_strict_sections_lenient.1 (.pystr "x") "r" (by intro kvs h; cases h),
   c7_top_level_strict_sections_lenient.2.1 [] "r" rfl,
   c7_top_level_strict_sections_lenient.2.2 [("sections", .pyint 3)] "r" (.pyint 3)
     (by simp [lookupKey]) (by intro xs h; cases h)⟩

/-! ## `FileExtractorClient.extract`
(`app/integrations/file_extractors/client.py`, lines 92–119) -/

structure FileExtractResult where
  raw_text : String
  lines : List String

/-- The `.lower()` applied to the extension.  `Char.toLower` folds ASCII
letters; Python's full Unicode case folding is not modelled (the
registered extensions are ASCII). -/
def lowerChars (s : List Char) : List Char := s.map Char.toLower

/-- `pathlib.PurePath(filename).name`: the component after the last `/`.
(Trailing-separator and drive normalization are not modelled; uploaded
filenames are plain names.) -/
def pathName (s : List Char) : List Char :=
  (s.reverse.takeWhile (fun c => c ≠ '/')).reverse

/-- `pathlib.PurePath(filename).suffix` (CPython: `name[i:]` where `i`
is the index of the last dot of `name`, provided `0 < i < len(name)-1`;
otherwise the empty string). -/
def pathSuffix (filename : List Char) : List Char :=
  let name := pathName filename
  match name.reverse.findIdx? (fun c => c = '.') with
  | Option.none => []
  | some j =>
    let i := name.length - 1 - j
    if 0 < i ∧ i < name.length - 1 then name.drop i else []

inductive ExtractErr where
  | unsupportedFileFormat (msg : String)

def PDF_CONTENT_TYPES : List String := ["application/pdf"]

def DOCX_CONTENT_TYPES : List String :=
  ["application/vnd.openxmlformats-officedocument.wordprocessingml.document"]

/-- `content_type in SET` (with `None` never a member). -/
def contentTypeIn (content_type : Option String) (s : List String) : Bool :=
  match content_type with
  | some ct => s.contains ct
  | Option.none => false

/-- `FileExtractorClient.extract`, with the two format extractors as
oracle parameters (their internals — PyPDF2 / python-docx — are outside
the modelled core; the dispatch logic is the code under test).  The
`repr`-style quoting inside the error message is simplified to plain
interpolation. -/
def FileExtractorClient.extract
    (pdfExtract docxExtract : List Nat → FileExtractResult)
    (file_bytes : List Nat) (filename : String) (content_type : Option String) :
    Except ExtractErr FileExtractResult :=
  let extension := lowerChars (pathSuffix filename.data)
  if extension = ".pdf".data then .ok (pdfExtract file_bytes)
  else if extension = ".docx".data then .ok (docxExtract file_bytes)
  else if contentTypeIn content_type PDF_CONTENT_TYPES then .ok (pdfExtract file_bytes)
  else if contentTypeIn content_type DOCX_CONTENT_TYPES then .ok (docxExtract file_bytes)
  else .error (.unsupportedFileFormat
    ("Unsupported file format: extension=" ++ String.mk extension ++
      ", content_type=" ++ (match content_type with
                            | some ct => ct
                            | Option.none => "None")))

/-- C10: dispatch is by case-insensitive extension first, `contentType`
is consulted only when the extension matches neither registered format,
and any other combination is an `UnsupportedFormat` error with no
extractor invoked (the result does not depend on the extractor
oracles). -/
theorem c10_extract_dispatch
    (pdfE docxE pdfE' docxE' : List Nat → FileExtractResult)
    (bytes : List Nat) (filename : String) (ct : Option String) :
    (lowerChars (pathSuffix filename.data) = ".pdf".data →
      FileExtractorClient.extract pdfE docxE bytes filename ct = .ok (pdfE bytes))
    ∧ (lowerChars (pathSuffix filename.data) = ".docx".data →
      FileExtractorClient.extract pdfE docxE bytes filename ct = .ok (docxE bytes))
    ∧ (lowerChars (pathSuffix filename.data) ≠ ".pdf".data →
       lowerChars (pathSuffix filename.data) ≠ ".docx".data →
       contentTypeIn ct PDF_CONTENT_TYPES = true →
      FileExtractorClient.extract pdfE docxE bytes filename ct = .ok (pdfE bytes))
    ∧ (lowerChars (pathSuffix filename.data) ≠ ".pdf".data →
       lowerChars (pathSuffix filename.data) ≠ ".docx".data →
       contentTypeIn ct PDF_CONTENT_TYPES = false →
       contentTypeIn ct DOCX_CONTENT_TYPES = true →
      FileExtractorClient.extract pdfE docxE bytes filename ct = .ok (docxE bytes))
    ∧ (lowerChars (pathSuffix filename.data) ≠ ".pdf".data →
       lowerChars (pathSuffix filename.data) ≠ ".docx".data →
       contentTypeIn ct PDF_CONTENT_TYPES = false →
       contentTypeIn ct DOCX_CONTENT_TYPES = false →
      FileExtractorClient.extract pdfE docxE bytes filename ct =
        FileExtractorClient.extract pdfE' docxE' bytes filename ct
      ∧ ∃ msg, FileExtractorClient.extract pdfE docxE bytes filename ct =
          .error (.unsupportedFileFormat msg)) := by
  refine ⟨?_, ?_, ?_, ?_, ?_⟩
  · intro h; simp [FileExtractorClient.extract, h]
  · intro h
    have hne : lowerChars (pathSuffix filename.data) ≠ ".pdf".data := by
      rw [h]; decide
    simp [FileExtractorClient.extract, hne, h]
  · intro h1 h2 h3
    simp [FileExtractorClient.extract, h1, h2, h3]
  · intro h1 h2 h3 h4
    simp [FileExtractorClient.extract, h1, h2, h3, h4]
  · intro h1 h2 h3 h4
    refine ⟨by simp [FileExtractorClient.extract, h1, h2, h3, h4], ?_⟩
    cases ct with
    | none =>
        exact ⟨"Unsupported file format: extension=" ++
          String.mk (lowerChars (pathSuffix filename.data)) ++
          ", content_type=" ++ "None",
          by simp [FileExtractorClient.extract, h1, h2, h3, h4]⟩
    | some c =>
        exact ⟨"Unsupported file format: extension=" ++
          String.mk (lowerChars (pathSuffix filename.data)) ++
          ", content_type=" ++ c,
          by simp_all [FileExtractorClient.extract, h1, h2]⟩

/-- Concrete instantiation of `c10_extract_dispatch`: a `.PDF` file goes
to the PDF extractor regardless of content type, and a `.txt` file with
`text/plain` is rejected without extraction. -/
theorem c10_extract_dispatch_witness :
    FileExtractorClient.extract (fun _ => ⟨"pdf", []⟩) (fun _ => ⟨"docx", []⟩)
      [1] "CV.PDF" (some "text/plain") = .ok ⟨"pdf", []⟩
    ∧ (FileExtractorClient.extract (fun _ => ⟨"pdf", []⟩) (fun _ => ⟨"docx", []⟩)
        [1] "a.txt" (some "text/plain") =
       FileExtractorClient.extract (fun _ => ⟨"PDF2", []⟩) (fun _ => ⟨"DOCX2", []⟩)
        [1] "a.txt" (some "text/plain")
      ∧ ∃ msg, FileExtractorClient.extract (fun _ => ⟨"pdf", []⟩) (fun _ => ⟨"docx", []⟩)
          [1] "a.txt" (some "text/plain") = .error (.unsupportedFileFormat msg)) :=
  ⟨(c10_extract_dispatch (fun _ => ⟨"pdf", []⟩) (fun _ => ⟨"docx", []⟩)
      (fun _ => ⟨"PDF2", []⟩) (fun _ => ⟨"DOCX2", []⟩) [1] "CV.PDF"
      (some "text/plain")).1 (by decide),
   (c10_extract_dispatch (fun _ => ⟨"pdf", []⟩) (fun _ => ⟨"docx", []⟩)
      (fun _ => ⟨"PDF2", []⟩) (fun _ => ⟨"DOCX2", []⟩) [1] "a.txt"
      (some "text/plain")).2.2.2.2 (by decide) (by decide) (by decide) (by decide)⟩

/-! ## `ResumeService.create_base_resume_from_upload`
(`app/features/resumes/service.py`, lines 46–132)

The three collaborator calls (`IngestionService.save_file`,
`IngestionService.extract_text`, `ParsingService.parse`) appear as
oracle outcomes, and the sequence of performed operations is recorded as
an event list (in execution order).  `ParsingService.parse` re-raises
every failure (its `except` clause logs and re-raises), so its outcome
is a plain `Except`. -/

inductive IngestEvent where
  | savedFile (path : String)
  | extractAttempt
  | parseAttempt

inductive UploadErr where
  /-- `HTTPException(status_code=400, detail=...)`. -/
  | httpBadRequest (detail : String)
  /-- an exception propagating out of the service unchanged. -/
  | exn (msg : String)

/-- Outcome of `IngestionService.extract_text`: text, an
`UnsupportedFileFormatError`, or some other extraction failure (both
are re-raised by `extract_text` itself; only the former is translated
by the service). -/
inductive ExtractTextOutcome where
  | ok (raw_text : String)
  | unsupported (msg : String)
  | failure (msg : String)

def create_base_resume_from_upload
    (save : Except String String)
    (extract : ExtractTextOutcome)
    (parse : String → Except String ParsedResumeData)
    (filename content_type : String) :
    Except UploadErr (BaseResume × List String) × List IngestEvent :=
  match save with
  | .error e => (.error (.exn e), [])
  | .ok saved_path =>
    match extract with
    | .unsupported msg =>
        (.error (.httpBadRequest msg), [.savedFile saved_path, .extractAttempt])
    | .failure msg =>
        (.error (.exn msg), [.savedFile saved_path, .extractAttempt])
    | .ok raw_text =>
      match parse raw_text with
      | .ok pd =>
          (.ok ({ filename := filename, content_type := content_type,
                  file_path := saved_path, parsed_data := some pd }, []),
           [.savedFile saved_path, .extractAttempt, .parseAttempt])
      | .error _ =>
          (.ok ({ filename := filename, content_type := content_type,
                  file_path := saved_path, parsed_data := Option.none },
                ["Failed to parse resume. Parsed data is not available."]),
           [.savedFile saved_path, .extractAttempt, .parseAttempt])

/-- C3: when extraction succeeds but parsing raises any error, ingestion
still succeeds, with `parsed_data = null` and exactly one warning, and
the save event precedes the parse attempt in the recorded trace. -/
theorem c3_ingest_partial_failure
    (saved_path raw_text e filename content_type : String)
    (parse : String → Except String ParsedResumeData)
    (hparse : parse raw_text = .error e) :
    create_base_resume_from_upload (.ok saved_path) (.ok raw_text) parse
        filename content_type =
      (.ok ({ filename := filename, content_type := content_type,
              file_path := saved_path, parsed_data := Option.none },
            ["Failed to parse resume. Parsed data is not available."]),
       [.savedFile saved_path, .extractAttempt, .parseAttempt])
    ∧ ∃ doc ws,
        (create_base_resume_from_upload (.ok saved_path) (.ok raw_text) parse
          filename content_type).1 = .ok (doc, ws)
        ∧ doc.parsed_data = Option.none ∧ ws.length = 1 := by
  have hmain : create_base_resume_from_upload (.ok saved_path) (.ok raw_text)
      parse filename content_type =
      (.ok ({ filename := filename, content_type := content_type,
              file_path := saved_path, parsed_data := Option.none },
            ["Failed to parse resume. Parsed data is not available."]),
       [.savedFile saved_path, .extractAttempt, .parseAttempt]) := by
    simp [create_base_resume_from_upload, hparse]
  refine ⟨hmain,
    { filename := filename, content_type := content_type,
      file_path := saved_path, parsed_data := Option.none },
    ["Failed to parse resume. Parsed data is not available."], ?_, rfl, rfl⟩
  rw [hmain]

/-- Concrete instantiation of `c3_ingest_partial_failure`. -/
theorem c3_ingest_partial_failure_witness :
    create_base_resume_from_upload (.ok "p") (.ok "txt")
        (fun _ => .error "LLM down") "cv.pdf" "application/pdf" =
      (.ok ({ filename := "cv.pdf", content_type := "application/pdf",
              file_path := "p", parsed_data := Option.none },
            ["Failed to parse resume. Parsed data is not available."]),
       [.savedFile "p", .extractAttempt, .parseAttempt])
    ∧ ∃ doc ws,
        (create_base_resume_from_upload (.ok "p") (.ok "txt")
          (fun _ => .error "LLM down") "cv.pdf" "application/pdf").1 = .ok (doc, ws)
        ∧ doc.parsed_data = Option.none ∧ ws.length = 1 :=
  c3_ingest_partial_failure "p" "txt" "LLM down" "cv.pdf" "application/pdf"
    (fun _ => .error "LLM down") rfl

/-- C6: an unsupported format is reported as an HTTP 400 client error,
and the file was saved before extraction was attempted (the save event
is recorded, and precedes the extraction attempt; no parse happens). -/
theorem c6_unsupported_format_post_save
    (saved_path msg filename content_type : String)
    (parse : String → Except String ParsedResumeData) :
    create_base_resume_from_upload (.ok saved_path) (.unsupported msg) parse
        filename content_type =
      (.error (.httpBadRequest msg), [.savedFile saved_path, .extractAttempt]) := by
  rfl

/-- Concrete instantiation of `c6_unsupported_format_post_save`. -/
theorem c6_unsupported_format_post_save_witness :
    create_base_resume_from_upload (.ok "p") (.unsupported "Unsupported file format")
        (fun _ => .error "unused") "notes.txt" "text/plain" =
      (.error (.httpBadRequest "Unsupported file format"),
       [.savedFile "p", .extractAttempt]) :=
  c6_unsupported_format_post_save "p" "Unsupported file format" "notes.txt"
    "text/plain" (fun _ => .error "unused")

/-! ## Customization
(`ResumeService.create_custom_version`, `app/features/resumes/service.py`
lines 219–372, and `ResumeRepository.create_version`,
`app/features/resumes/persistence/repository.py` lines 138–200) -/

/-- A stored section of the parent document (ORM `ResumeSectionModel`). -/
structure DbSection where
  title : Option String
  content : Option String
  raw_content : Option String
  order : Option Int

/-- The parent document as loaded by `get_by_id(load_sections=True)`. -/
structure ResumeRec where
  sections : List DbSection

/-- A section row created by `create_version`
(ORM `ResumeVersionSectionModel`); fields hold the values taken from the
LLM element verbatim (database column typing is outside the model). -/
structure VersionSection where
  title : PyVal
  content : PyVal
  raw_content : PyVal
  order : PyVal

structure ResumeVersionRec where
  job_description : String
  cover_letter : PyVal
  sections : List VersionSection

/-- `HTTPException(status_code, detail)` raised by the service.  The
interpolated resume id in the 404 detail is elided. -/
structure HTTPErrorRec where
  status : Nat
  detail : String

/-- The section loop of `ResumeRepository.create_version`: each element's
fields are read with `.get`; a non-dict element raises `AttributeError`
(so the whole operation fails); `order` is `section_data.get("order", idx)`
— the element's own value whenever the key is present, else the array
index. -/
def versionSectionsOf (idx : Nat) : List PyVal → Except String (List VersionSection)
  | [] => .ok []
  | item :: rest =>
    match item with
    | .pydict kvs =>
      match versionSectionsOf (idx + 1) rest with
      | .ok tl =>
          .ok ({ title := dictGet kvs "title"
                 content := dictGet kvs "content"
                 raw_content := dictGet kvs "raw_content"
                 order := dictGetD kvs "order" (.pyint idx) } :: tl)
      | .error e => .error e
    | _ => .error "AttributeError: object has no attribute get"

/-- `ResumeRepository.create_version` (the persistence flush/refresh is
the ORM's; the constructed version with its section rows is returned). -/
def ResumeRepository.create_version (job_description : String)
    (custom_sections : List PyVal) (cover_letter : PyVal) :
    Except String ResumeVersionRec :=
  match versionSectionsOf 0 custom_sections with
  | .ok secs => .ok { job_description := job_description
                      cover_letter := cover_letter
                      sections := secs }
  | .error e => .error e

/-- `ResumeService.create_custom_version`.  The repository lookup and
the two Gateway calls are oracle outcomes; the returned `Nat` counts the
`generate_json` calls performed.  The db-session / LLM-client presence
guards are elided (the collaborators are given). -/
def create_custom_version
    (resume : Option ResumeRec)
    (llmSections llmCover : Except String PyVal)
    (job_description : String) :
    Except HTTPErrorRec ResumeVersionRec × Nat :=
  match resume with
  | Option.none => (.error ⟨404, "Resume not found"⟩, 0)
  | some r =>
    if r.sections.isEmpty then
      (.error ⟨400, "Resume has no sections to customize"⟩, 0)
    else
      match llmSections with
      | .error _ =>
          (.error ⟨500, "Internal server error during resume version creation"⟩, 1)
      | .ok llm_response =>
        match llm_response with
        | .pydict kvs =>
          match lookupKey kvs "sections" with
          | Option.none =>
              (.error ⟨500, "Invalid response from LLM for resume customization"⟩, 1)
          | some sv =>
            let custom_sections : List PyVal :=
              match sv with
              | .pylist xs => xs
              | _ => []
            let cover_letter : PyVal :=
              match llmCover with
              | .error _ => .pynone
              | .ok cresp =>
                match cresp with
                | .pydict ckvs =>
                  match lookupKey ckvs "cover_letter" with
                  | some v => v
                  | Option.none => .pynone
                | _ => .pynone
            match ResumeRepository.create_version job_description
                custom_sections cover_letter with
            | .ok version => (.ok version, 2)
            | .error _ =>
                (.error ⟨500, "Internal server error during resume version creation"⟩, 2)
        | _ => (.error ⟨500, "Invalid response from LLM for resume customization"⟩, 1)

/-- C8: with an existing base document whose section list is empty, the
operation is a 400 validation error and the Gateway is never invoked
(zero `generate_json` calls, whatever the Gateway oracles would have
answered). -/
theorem c8_empty_sections_validation_error
    (r : ResumeRec) (llm1 llm2 : Except String PyVal) (jd : String)
    (h : r.sections = []) :
    create_custom_version (some r) llm1 llm2 jd =
      (.error ⟨400, "Resume has no sections to customize"⟩, 0) := by
  simp [create_custom_version, h]

/-- Concrete instantiation of `c8_empty_sections_validation_error`. -/
theorem c8_empty_sections_validation_error_witness :
    create_custom_version (some ⟨[]⟩) (.ok (.pydict [])) (.error "boom") "jd" =
      (.error ⟨400, "Resume has no sections to customize"⟩, 0) :=
  c8_empty_sections_validation_error ⟨[]⟩ (.ok (.pydict [])) (.error "boom") "jd" rfl

/-- The cover-letter step failed: the Gateway call raised, or the reply
was not a dict, or the dict lacks the `cover_letter` key. -/
def coverFailed : Except String PyVal → Prop := fun r =>
  match r with
  | .error _ => True
  | .ok (.pydict ckvs) => lookupKey ckvs "cover_letter" = Option.none
  | .ok _ => True

/-- C9: when the sections Gateway call succeeds (well-shaped response
whose sections persist fine) but the cover-letter step fails in any of
its failure modes, the customization still succeeds, with the customized
sections and a null cover letter. -/
theorem c9_cover_letter_best_effort
    (r : ResumeRec) (kvs : List (String × PyVal)) (xs : List PyVal)
    (secs : List VersionSection) (llm2 : Except String PyVal) (jd : String)
    (hs : r.sections ≠ [])
    (hxs : lookupKey kvs "sections" = some (.pylist xs))
    (hok : versionSectionsOf 0 xs = .ok secs)
    (hcf : coverFailed llm2) :
    create_custom_version (some r) (.ok (.pydict kvs)) llm2 jd =
      (.ok { job_description := jd, cover_letter := .pynone, sections := secs }, 2) := by
  have hne : r.sections.isEmpty = false := by
    cases hsec : r.sections with
    | nil => exact absurd hsec hs
    | cons a l => simp
  rcases llm2 with e | c
  · simp [create_custom_version, hne, hxs, ResumeRepository.create_version, hok]
  · cases c with
    | pydict ckvs =>
      have hcl : lookupKey ckvs "cover_letter" = Option.none := hcf
      simp [create_custom_version, hne, hxs, hcl,
        ResumeRepository.create_version, hok]
    | _ =>
      simp [create_custom_version, hne, hxs,
        ResumeRepository.create_version, hok]

/-- Concrete instantiation of `c9_cover_letter_best_effort`. -/
theorem c9_cover_letter_best_effort_witness :
    create_custom_version
        (some ⟨[⟨some "t", some "c", Option.none, some 0⟩]⟩)
        (.ok (.pydict [("sections", .pylist [.pydict [("title", .pystr "T")]])]))
        (.error "cover letter call failed") "jd" =
      (.ok { job_description := "jd", cover_letter := .pynone,
             sections := [⟨.pystr "T", .pynone, .pynone, .pyint 0⟩] }, 2) :=
  c9_cover_letter_best_effort
    ⟨[⟨some "t", some "c", Option.none, some 0⟩]⟩
    [("sections", .pylist [.pydict [("title", .pystr "T")]])]
    [.pydict [("title", .pystr "T")]]
    [⟨.pystr "T", .pynone, .pynone, .pyint 0⟩]
    (.error "cover letter call failed") "jd"
    (by simp) (by simp [lookupKey]) rfl trivial

/-- C5 as stated is false: with a non-empty parent section list, an LLM
reply `{"sections": []}` passes every check and the customization
completes successfully with a version holding zero sections. -/
theorem c5_counterexample :
    create_custom_version
        (some ⟨[⟨some "t", some "c", Option.none, some 0⟩]⟩)
        (.ok (.pydict [("sections", .pylist [])]))
        (.ok (.pydict [("cover_letter", .pystr "CL")])) "jd" =
      (.ok { job_description := "jd", cover_letter := .pystr "CL",
             sections := [] }, 2)
    ∧ ({ job_description := "jd", cover_letter := .pystr "CL",
         sections := [] } : ResumeVersionRec).sections.length = 0 :=
  ⟨rfl, rfl⟩

/-- C5 amended: a successful customization implies the parent document
had a non-empty section list (the precondition is enforced), but the
resulting version itself may have zero sections (e.g. when the LLM
returns an empty `sections` array). -/
theorem c5_amended_nonempty_precondition
    (resume : Option ResumeRec) (llm1 llm2 : Except String PyVal)
    (jd : String) (v : ResumeVersionRec) (n : Nat)
    (h : create_custom_version resume llm1 llm2 jd = (.ok v, n)) :
    ∃ r, resume = some r ∧ r.sections ≠ [] := by
  cases resume with
  | none => simp [create_custom_version] at h
  | some r =>
    refine ⟨r, rfl, ?_⟩
    intro hempty
    simp [create_custom_version, hempty] at h

/-- Concrete instantiation of `c5_amended_nonempty_precondition`. -/
theorem c5_amended_nonempty_precondition_witness :
    ∃ r, (some (⟨[⟨some "t", some "c", Option.none, some 0⟩]⟩ : ResumeRec)) =
        some r ∧ r.sections ≠ [] :=
  c5_amended_nonempty_precondition
    (some ⟨[⟨some "t", some "c", Option.none, some 0⟩]⟩)
    (.ok (.pydict [("sections", .pylist [])]))
    (.ok (.pydict [("cover_letter", .pystr "CL")])) "jd"
    { job_description := "jd", cover_letter := .pystr "CL", sections := [] } 2
    rfl

/-- C4 as stated is false on both counts: a non-object item in the
customized `sections` array makes the whole operation fail with a server
error (it is not skipped), and a stored section's `order` is taken from
the element's own `order` key when present (here 7, not the array
index 0). -/
theorem c4_counterexample :
    create_custom_version
        (some ⟨[⟨some "t", Option.none, Option.none, some 0⟩]⟩)
        (.ok (.pydict [("sections", .pylist [.pystr "garbage", .pydict []])]))
        (.ok .pynone) "jd" =
      (.error ⟨500, "Internal server error during resume version creation"⟩, 2)
    ∧ create_custom_version
        (some ⟨[⟨some "t", Option.none, Option.none, some 0⟩]⟩)
        (.ok (.pydict [("sections", .pylist [.pydict [("order", .pyint 7)]])]))
        (.ok .pynone) "jd" =
      (.ok { job_description := "jd", cover_letter := .pynone,
             sections := [⟨.pynone, .pynone, .pynone, .pyint 7⟩] }, 2)
    ∧ PyVal.pyint 7 ≠ PyVal.pyint 0 :=
  ⟨rfl, rfl, by simp⟩

/-- The `VersionSection` that `create_version`'s loop stores for array
element `(i, item)` when `item` is a dict: fields verbatim, `order` from
the element's own `order` key, defaulting to the index `i`. -/
def verSpecSection (p : Nat × PyVal) : VersionSection :=
  match p.2 with
  | .pydict kvs =>
      { title := dictGet kvs "title"
        content := dictGet kvs "content"
        raw_content := dictGet kvs "raw_content"
        order := dictGetD kvs "order" (.pyint p.1) }
  | _ => { title := .pynone, content := .pynone,
           raw_content := .pynone, order := .pyint p.1 }

theorem versionSectionsOf_bad_item (custom : List PyVal) :
    ∀ idx, (∃ item ∈ custom, ∀ kvs, item ≠ PyVal.pydict kvs) →
    ∃ e, versionSectionsOf idx custom = .error e := by
  induction custom with
  | nil => intro idx h; obtain ⟨item, hm, _⟩ := h; cases hm
  | cons hd tl ih =>
    intro idx h
    obtain ⟨item, hm, hnd⟩ := h
    cases hd with
    | pydict kvs =>
      have hitem : item ∈ tl := by
        cases List.mem_cons.mp hm with
        | inl he => exact absurd he (hnd kvs)
        | inr ht => exact ht
      obtain ⟨e, he⟩ := ih (idx + 1) ⟨item, hitem, hnd⟩
      exact ⟨e, by simp [versionSectionsOf, he]⟩
    | _ => exact ⟨_, rfl⟩

theorem versionSectionsOf_all_dicts (custom : List PyVal) :
    ∀ idx, (∀ item ∈ custom, ∃ kvs, item = PyVal.pydict kvs) →
    versionSectionsOf idx custom = .ok ((custom.enumFrom idx).map verSpecSection) := by
  induction custom with
  | nil => intro idx _; rfl
  | cons hd tl ih =>
    intro idx h
    obtain ⟨d, hd_eq⟩ := h hd (List.mem_cons_self _ _)
    subst hd_eq
    simp only [versionSectionsOf, List.enumFrom, List.map, verSpecSection]
    rw [ih (idx + 1) (fun v hv => h v (List.mem_cons_of_mem _ hv))]

/-- C4 amended: `create_version` does NOT reuse the parsing mapper's
lenient policy — any non-object item in the customized sections array
makes the whole operation fail (no skipping); and for an all-object
array each stored section's `order` is the element's own `order` value
when the key is present, with the zero-based array index only as the
fallback. -/
theorem c4_amended_strict_items_order_from_llm :
    (∀ (custom : List PyVal) (jd : String) (cl : PyVal),
      (∃ item ∈ custom, ∀ kvs, item ≠ PyVal.pydict kvs) →
      ∃ e, ResumeRepository.create_version jd custom cl = .error e)
    ∧ (∀ (custom : List PyVal) (jd : String) (cl : PyVal),
      (∀ item ∈ custom, ∃ kvs, item = PyVal.pydict kvs) →
      ResumeRepository.create_version jd custom cl =
        .ok { job_description := jd, cover_letter := cl,
              sections := (custom.enumFrom 0).map verSpecSection }) := by
  constructor
  · intro custom jd cl h
    obtain ⟨e, he⟩ := versionSectionsOf_bad_item custom 0 h
    exact ⟨e, by simp [ResumeRepository.create_version, he]⟩
  · intro custom jd cl h
    simp [ResumeRepository.create_version, versionSectionsOf_all_dicts custom 0 h]

/-- Concrete instantiation of `c4_amended_strict_items_order_from_llm`. -/
theorem c4_amended_strict_items_order_from_llm_witness :
    (∃ e, ResumeRepository.create_version "jd" [.pystr "garbage"] .pynone = .error e)
    ∧ ResumeRepository.create_version "jd" [.pydict [("order", .pyint 7)]] .pynone =
        .ok { job_description := "jd", cover_letter := .pynone,
              sections :=
                (([PyVal.pydict [("order", .pyint 7)]] : List PyVal).enumFrom 0).map
                  verSpecSection } :=
  ⟨c4_amended_strict_items_order_from_llm.1 [.pystr "garbage"] "jd" .pynone
      ⟨.pystr "garbage", List.mem_singleton.mpr rfl, by intro kvs h; cases h⟩,
   c4_amended_strict_items_order_from_llm.2 [.pydict [("order", .pyint 7)]] "jd" .pynone
      (by intro v hv; simp only [List.mem_singleton] at hv
          exact ⟨[("order", .pyint 7)], hv⟩)⟩

/-! ## `GeminiClient._clean_json_response`
(`app/integrations/llm/client.py`, lines 37–73)

The sanitizer is embedded over `List Char`.  The two `re.sub` calls are
modelled by explicit left-to-right scanners with the exact Python
`re.MULTILINE` semantics: `^` matches at position 0 and right after
every `'\n'`; `$` matches at the end and right before every `'\n'`;
after a match the scan resumes at the match's end.  `\s` and Python's
`str.strip()` whitespace are modelled by the ASCII whitespace set
(Unicode whitespace beyond ASCII is not modelled; the registered fence
and quote characters are ASCII).  The scanners take a fuel argument
(`s.length` steps always suffice: every step consumes at least one
character). -/

/-- ASCII part of the `\s` class / `str.strip()` set. -/
def isRegexWs (c : Char) : Bool :=
  c == ' ' || c == '\t' || c == '\n' || c == '\r' ||
  c == Char.ofNat 11 || c == Char.ofNat 12

/-- The backquote character (written via its code point). -/
def backtickChar : Char := Char.ofNat 96

def isTick (c : Char) : Bool := c == backtickChar

/-- Strip characters satisfying `p` from both ends. -/
def dropEdge (p : Char → Bool) (t : List Char) : List Char :=
  ((t.dropWhile p).reverse.dropWhile p).reverse

/-- Python `text.strip()` (ASCII part). -/
def stripWs : List Char → List Char := dropEdge isRegexWs

/-- Python `text.strip(chr(96))`. -/
def stripTicks : List Char → List Char := dropEdge isTick

/-- The suffix starting at the LAST `'\n'` of the list, if any. -/
def splitLastNl : List Char → Option (List Char)
  | [] => Option.none
  | c :: cs =>
    match splitLastNl cs with
    | some t => some t
    | Option.none => if c == '\n' then some (c :: cs) else Option.none

/-- Greedy `\s*` followed by a MULTILINE `$`, applied to the text after
the closing fence's backquotes: `some rest` is the unconsumed text
starting at the `$` position (`$` is zero-width, so a `'\n'` it matched
before is kept).  The greedy `\s*` backtracks to the longest whitespace
prefix whose end is the end of the text or sits right before a `'\n'`. -/
def wsDollar (s : List Char) : Option (List Char) :=
  let run := s.takeWhile isRegexWs
  let rest := s.dropWhile isRegexWs
  if rest.isEmpty then some []
  else
    match splitLastNl run with
    | some tail => some (tail ++ rest)
    | Option.none => Option.none

/-- The `` ```\s*$ `` part of the second pattern, tried at one position:
`some rest` is the text left after the whole match. -/
def matchTicksClose (s : List Char) : Option (List Char) :=
  if s.take 3 = "```".data then wsDollar (s.drop 3) else Option.none

/-- One attempt of `\n?```\s*$` (pattern 2) at a position: the greedy
`\n?` branch is tried first; when it fails the backtracked empty branch
needs the backquotes at the current position. -/
def matchP2 (s : List Char) : Option (List Char) :=
  match s with
  | c :: rest =>
    if c == '\n' then
      match matchTicksClose rest with
      | some r => some r
      | Option.none => matchTicksClose s
    else matchTicksClose s
  | [] => Option.none

/-- One attempt of `` ^```(?:json)?\s*\n? `` (pattern 1) at a line
start: `some (rest, nl)` is the unconsumed text and whether the last
consumed character was a `'\n'` (i.e. whether the resume position is a
line start).  The greedy `\s*` swallows every following whitespace
character (newlines included), after which `\n?` necessarily matches
empty. -/
def matchFence (s : List Char) : Option (List Char × Bool) :=
  if s.take 3 = "```".data then
    let rest := s.drop 3
    let rest2 := if rest.take 4 = "json".data then rest.drop 4 else rest
    let run := rest2.takeWhile isRegexWs
    let rest3 := rest2.dropWhile isRegexWs
    some (rest3, run.getLast? == some '\n')
  else Option.none

/-- The scan of `re.sub(r'^```(?:json)?\s*\n?', '', text, flags=re.MULTILINE)`:
`atStart` records whether the current position is a line start. -/
def sub1go : Nat → Bool → List Char → List Char
  | 0, _, s => s
  | _ + 1, _, [] => []
  | fuel + 1, atStart, c :: cs =>
    if atStart then
      match matchFence (c :: cs) with
      | some (rest, nl) => sub1go fuel nl rest
      | Option.none => c :: sub1go fuel (c == '\n') cs
    else c :: sub1go fuel (c == '\n') cs

/-- The scan of `re.sub(r'\n?```\s*$', '', text, flags=re.MULTILINE)`. -/
def sub2go : Nat → List Char → List Char
  | 0, s => s
  | _ + 1, [] => []
  | fuel + 1, c :: cs =>
    match matchP2 (c :: cs) with
    | some rest => sub2go fuel rest
    | Option.none => c :: sub2go fuel cs

/-- The quote-unwrapping step: strip one layer of matching `'...'` or
`"..."` when the text is longer than two characters and the character
right after the opening quote is `{` or `[`. -/
def quoteStrip (t : List Char) : List Char :=
  if t.head? = some '\'' ∧ t.getLast? = some '\'' then
    if 2 < t.length ∧ (t.get? 1 = some '{' ∨ t.get? 1 = some '[') then
      (t.drop 1).dropLast
    else t
  else if t.head? = some '"' ∧ t.getLast? = some '"' then
    if 2 < t.length ∧ (t.get? 1 = some '{' ∨ t.get? 1 = some '[') then
      (t.drop 1).dropLast
    else t
  else t

/-- `GeminiClient._clean_json_response(text)`:
empty guard; the two MULTILINE substitutions; `strip().strip(chr(96))`;
`strip()`; the quote-unwrapping; a final `strip()`. -/
def clean_json_response (text : List Char) : List Char :=
  if text.isEmpty then text
  else
    let t1 := sub1go text.length true text
    let t2 := sub2go t1.length t1
    let t3 := stripTicks (stripWs t2)
    let t4 := stripWs t3
    let t5 := quoteStrip t4
    stripWs t5

/-! ### Scan predicates and identity lemmas for the two substitutions -/

/-- No line start carries a backquote (so pattern 1 never fires); the
flag says whether the first position is a line start. -/
def noTickLS : Bool → List Char → Bool
  | _, [] => true
  | atStart, c :: cs => (!(atStart && isTick c)) && noTickLS (c == '\n') cs

/-- The line-start flag after scanning `l`, starting from `f`. -/
def endFlag (f : Bool) : List Char → Bool
  | [] => f
  | c :: cs => endFlag (c == '\n') cs

/-- A non-whitespace character comes before the next newline (and before
the end), so a MULTILINE `\s*$` starting here fails. -/
def blockedEol : List Char → Bool
  | [] => false
  | c :: cs => if c == '\n' then false else if isRegexWs c then blockedEol cs else true

/-- After every backquote a non-whitespace character comes before the
next newline/end (so pattern 2 never fires). -/
def ticksBlocked : List Char → Bool
  | [] => true
  | c :: cs => (!(isTick c) || blockedEol cs) && ticksBlocked cs

theorem ticks_data : "```".data = [backtickChar, backtickChar, backtickChar] := by
  decide

theorem noTickLS_append (a : List Char) : ∀ (f : Bool) (b : List Char),
    noTickLS f (a ++ b) = (noTickLS f a && noTickLS (endFlag f a) b) := by
  induction a with
  | nil => intro f b; simp [noTickLS, endFlag]
  | cons c cs ih =>
    intro f b
    simp [noTickLS, endFlag, ih, Bool.and_assoc]

theorem noTickLS_weaken {l : List Char} (h : noTickLS true l = true) :
    ∀ f, noTickLS f l = true := by
  cases l with
  | nil => intro f; rfl
  | cons c cs =>
    intro f
    simp only [noTickLS, Bool.and_eq_true] at h ⊢
    refine ⟨?_, h.2⟩
    have h1 := h.1
    cases f
    · simp
    · exact h1

theorem noTickLS_of_no_nl {l : List Char} (h : ∀ c ∈ l, c ≠ '\n') :
    noTickLS false l = true := by
  induction l with
  | nil => rfl
  | cons c cs ih =>
    have hc : (c == '\n') = false := by
      simp [h c (List.mem_cons_self _ _)]
    simp [noTickLS, hc, ih (fun x hx => h x (List.mem_cons_of_mem _ hx))]

theorem noTickLS_of_no_tick {l : List Char} (h : ∀ c ∈ l, isTick c = false) :
    ∀ f, noTickLS f l = true := by
  induction l with
  | nil => intro f; rfl
  | cons c cs ih =>
    intro f
    simp [noTickLS, h c (List.mem_cons_self _ _),
      ih (fun x hx => h x (List.mem_cons_of_mem _ hx))]

theorem blockedEol_append {a : List Char} (h : blockedEol a = true) (b : List Char) :
    blockedEol (a ++ b) = true := by
  induction a with
  | nil => cases h
  | cons c cs ih =>
    simp only [blockedEol, List.cons_append] at h ⊢
    by_cases h1 : (c == '\n') = true
    · rw [if_pos h1] at h; cases h
    · rw [if_neg h1] at h ⊢
      by_cases h2 : isRegexWs c = true
      · rw [if_pos h2] at h ⊢; exact ih h
      · rw [if_neg h2]

theorem ticksBlocked_append {a b : List Char} (ha : ticksBlocked a = true)
    (hb : ticksBlocked b = true) : ticksBlocked (a ++ b) = true := by
  induction a with
  | nil => exact hb
  | cons c cs ih =>
    simp only [List.cons_append, ticksBlocked, Bool.and_eq_true] at ha ⊢
    refine ⟨?_, ih ha.2⟩
    by_cases htc : isTick c = true
    · have hbl : blockedEol cs = true := by
        have h1 := ha.1
        rw [htc] at h1
        simpa using h1
      simp [blockedEol_append hbl b]
    · simp only [Bool.not_eq_true] at htc
      simp [htc]

theorem ticksBlocked_of_no_tick {l : List Char} (h : ∀ c ∈ l, isTick c = false) :
    ticksBlocked l = true := by
  induction l with
  | nil => rfl
  | cons c cs ih =>
    simp [ticksBlocked, h c (List.mem_cons_self _ _),
      ih (fun x hx => h x (List.mem_cons_of_mem _ hx))]

theorem matchFence_none_of_head {c : Char} {cs : List Char} (h : isTick c = false) :
    matchFence (c :: cs) = Option.none := by
  rw [matchFence, if_neg]
  intro he
  rw [List.take_succ_cons, ticks_data] at he
  injection he with h1 _
  rw [h1] at h
  simp [isTick] at h

theorem sub1go_id : ∀ (fuel : Nat) (f : Bool) (s : List Char),
    s.length ≤ fuel → noTickLS f s = true → sub1go fuel f s = s := by
  intro fuel
  induction fuel with
  | zero => intro f s _ _; rfl
  | succ n ih =>
    intro f s hlen hok
    cases s with
    | nil => rfl
    | cons c cs =>
      simp only [noTickLS, Bool.and_eq_true] at hok
      have hrec := ih (c == '\n') cs
        (by simpa using Nat.le_of_succ_le_succ hlen) hok.2
      cases f with
      | false => simp [sub1go, hrec]
      | true =>
        have htick : isTick c = false := by simpa using hok.1
        simp [sub1go, matchFence_none_of_head htick, hrec]

theorem sub1go_append : ∀ (a : List Char) (fuel : Nat) (f : Bool) (b : List Char),
    (a ++ b).length ≤ fuel → noTickLS f a = true →
    sub1go fuel f (a ++ b) = a ++ sub1go (fuel - a.length) (endFlag f a) b := by
  intro a
  induction a with
  | nil => intro fuel f b _ _; simp [endFlag]
  | cons c cs ih =>
    intro fuel f b hlen hok
    cases fuel with
    | zero => simp at hlen
    | succ n =>
      simp only [noTickLS, Bool.and_eq_true] at hok
      have hlen' : (cs ++ b).length ≤ n := by
        simp only [List.length_append, List.length_cons] at hlen ⊢
        omega
      have hrec := ih n (c == '\n') b hlen' hok.2
      have hstep : sub1go (n + 1) f (c :: (cs ++ b)) =
          c :: sub1go n (c == '\n') (cs ++ b) := by
        cases f with
        | false => simp [sub1go]
        | true =>
          have htick : isTick c = false := by simpa using hok.1
          simp [sub1go, matchFence_none_of_head htick]
      calc sub1go (n + 1) f ((c :: cs) ++ b)
          = c :: sub1go n (c == '\n') (cs ++ b) := hstep
        _ = c :: (cs ++ sub1go (n - cs.length) (endFlag (c == '\n') cs) b) := by
              rw [hrec]
        _ = (c :: cs) ++ sub1go (n + 1 - (c :: cs).length) (endFlag f (c :: cs)) b := by
              rw [show n + 1 - (c :: cs).length = n - cs.length by
                simp [List.length_cons]]
              rfl

theorem blockedEol_dropWhile_ne {r : List Char} (h : blockedEol r = true) :
    r.dropWhile isRegexWs ≠ [] := by
  induction r with
  | nil => cases h
  | cons c cs ih =>
    simp only [blockedEol] at h
    by_cases h1 : (c == '\n') = true
    · rw [if_pos h1] at h; cases h
    · rw [if_neg h1] at h
      by_cases h2 : isRegexWs c = true
      · rw [if_pos h2] at h
        simpa [List.dropWhile, h2] using ih h
      · simp [List.dropWhile, h2]

theorem blockedEol_splitLastNl {r : List Char} (h : blockedEol r = true) :
    splitLastNl (r.takeWhile isRegexWs) = Option.none := by
  induction r with
  | nil => rfl
  | cons c cs ih =>
    simp only [blockedEol] at h
    by_cases h1 : (c == '\n') = true
    · rw [if_pos h1] at h; cases h
    · rw [if_neg h1] at h
      by_cases h2 : isRegexWs c = true
      · rw [if_pos h2] at h
        simp [List.takeWhile, h2, splitLastNl, ih h, h1]
      · simp [List.takeWhile, h2, splitLastNl]

theorem wsDollar_none_of_blocked {r : List Char} (h : blockedEol r = true) :
    wsDollar r = Option.none := by
  have h1 : (r.dropWhile isRegexWs).isEmpty = false := by
    cases hd : r.dropWhile isRegexWs with
    | nil => exact absurd hd (blockedEol_dropWhile_ne h)
    | cons x xs => rfl
  simp [wsDollar, h1, blockedEol_splitLastNl h]

theorem matchTicksClose_none_of_blocked {s : List Char} (h : ticksBlocked s = true) :
    matchTicksClose s = Option.none := by
  unfold matchTicksClose
  by_cases ht : s.take 3 = "```".data
  · rw [if_pos ht]
    match s, ht with
    | c1 :: c2 :: c3 :: s3, ht => ?_
    rw [ticks_data] at ht
    simp only [List.take_succ_cons, List.take] at ht
    obtain ⟨h1, h2, h3, -⟩ := List.cons.inj ht |>.imp id
      (fun q => List.cons.inj q |>.imp id (fun q2 => List.cons.inj q2))
    have hb : blockedEol s3 = true := by
      simp only [ticksBlocked, Bool.and_eq_true] at h
      have h33 := h.2.2.1
      rw [h3] at h33
      simpa [isTick] using h33
    simpa using wsDollar_none_of_blocked hb
  · rw [if_neg ht]

theorem matchP2_none_of_blocked {s : List Char} (h : ticksBlocked s = true) :
    matchP2 s = Option.none := by
  cases s with
  | nil => rfl
  | cons c cs =>
    have hcs : ticksBlocked cs = true := by
      simp only [ticksBlocked, Bool.and_eq_true] at h; exact h.2
    by_cases hnl : (c == '\n') = true
    · simp [matchP2, hnl, matchTicksClose_none_of_blocked hcs,
        matchTicksClose_none_of_blocked h]
    · simp [matchP2, hnl, matchTicksClose_none_of_blocked h]

theorem sub2go_id : ∀ (fuel : Nat) (s : List Char),
    s.length ≤ fuel → ticksBlocked s = true → sub2go fuel s = s := by
  intro fuel
  induction fuel with
  | zero => intro s _ _; rfl
  | succ n ih =>
    intro s hlen hok
    cases s with
    | nil => rfl
    | cons c cs =>
      have hcs : ticksBlocked cs = true := by
        simp only [ticksBlocked, Bool.and_eq_true] at hok; exact hok.2
      simp [sub2go, matchP2_none_of_blocked hok,
        ih cs (by simpa using Nat.le_of_succ_le_succ hlen) hcs]

theorem endFlag_of_getLast : ∀ (l : List Char) (c : Char), l.getLast? = some c →
    ∀ f, endFlag f l = (c == '\n') := by
  intro l
  induction l with
  | nil => intro c h f; cases h
  | cons x xs ih =>
    intro c h f
    cases xs with
    | nil =>
      simp only [List.getLast?_singleton, Option.some.injEq] at h
      simp [endFlag, h]
    | cons y ys =>
      have hrec := ih c (by rwa [List.getLast?_cons_cons] at h)
      exact hrec (x == '\n')

theorem dropWhile_id_of_head {p : Char → Bool} {l : List Char} {c : Char}
    (hh : l.head? = some c) (hp : p c = false) : l.dropWhile p = l := by
  cases l with
  | nil => cases hh
  | cons x xs =>
    have hx : x = c := by simpa using hh
    subst hx
    simp [List.dropWhile, hp]

theorem dropEdge_id {p : Char → Bool} {l : List Char} {c1 c2 : Char}
    (h1 : l.head? = some c1) (hp1 : p c1 = false)
    (h2 : l.getLast? = some c2) (hp2 : p c2 = false) :
    dropEdge p l = l := by
  unfold dropEdge
  rw [dropWhile_id_of_head h1 hp1,
    dropWhile_id_of_head (by rwa [List.head?_reverse]) hp2,
    List.reverse_reverse]

theorem dropWhile_append_of_all {p : Char → Bool} {a : List Char}
    (h : ∀ c ∈ a, p c = true) (b : List Char) :
    (a ++ b).dropWhile p = b.dropWhile p := by
  induction a with
  | nil => rfl
  | cons c cs ih =>
    simp [List.dropWhile, h c (List.mem_cons_self _ _),
      ih (fun x hx => h x (List.mem_cons_of_mem _ hx))]

theorem stripWs_sandwich {w1 v w2 : List Char} {hc lc : Char}
    (hw1 : ∀ c ∈ w1, isRegexWs c = true) (hw2 : ∀ c ∈ w2, isRegexWs c = true)
    (hhd : v.head? = some hc) (hhd' : isRegexWs hc = false)
    (hlast : v.getLast? = some lc) (hlast' : isRegexWs lc = false) :
    stripWs (w1 ++ v ++ w2) = v := by
  unfold stripWs dropEdge
  rw [List.append_assoc, dropWhile_append_of_all hw1]
  have hv : v ≠ [] := by intro hv; rw [hv] at hhd; cases hhd
  have hhd2 : (v ++ w2).head? = some hc := by
    cases v with
    | nil => cases hhd
    | cons x xs => simpa using hhd
  rw [dropWhile_id_of_head hhd2 hhd', List.reverse_append,
    dropWhile_append_of_all (by intro c hcm; exact hw2 c (List.mem_reverse.mp hcm)),
    dropWhile_id_of_head (by rwa [List.head?_reverse]) hlast',
    List.reverse_reverse]

/-! ### An over-approximating grammar of valid JSON texts

`JG .val v` derives (a superset of) the RFC 8259 JSON value texts with
no surrounding whitespace: string bodies (`SChars`) and number tokens
(`JNumTok`) are over-approximated, and array/object interiors allow the
standard inter-token whitespace.  Every valid JSON value text is
derivable, so a theorem quantified over `JG .val` covers every valid
JSON text. -/

def jsonWsChar (c : Char) : Bool := c == ' ' || c == '\t' || c == '\n' || c == '\r'

def JWs (l : List Char) : Prop := ∀ c ∈ l, jsonWsChar c = true

/-- Over-approximation of a JSON string-literal body as a flat character
sequence: any character other than an unescaped `"` and a raw newline,
with a backslash escaping the following (non-newline) character.  Every
RFC 8259 string body — escapes, `\uXXXX` sequences and raw backquotes
included — satisfies this. -/
inductive SChars : List Char → Prop where
  | nil : SChars []
  | chr {c : Char} {cs : List Char} :
      c ≠ '"' → c ≠ '\n' → SChars cs → SChars (c :: cs)
  | esc {c : Char} {cs : List Char} :
      c ≠ '\n' → SChars cs → SChars ('\\' :: c :: cs)

def numChar (c : Char) : Bool :=
  c.isDigit || c == '-' || c == '+' || c == '.' || c == 'e' || c == 'E'

/-- Over-approximation of a JSON number token: number characters only,
starting with a digit or `-`, ending with a digit. -/
def JNumTok (l : List Char) : Prop :=
  (∀ c ∈ l, numChar c = true) ∧
  (∃ c, l.head? = some c ∧ (c.isDigit = true ∨ c = '-')) ∧
  (∃ c, l.getLast? = some c ∧ c.isDigit = true)

inductive JPiece where
  | val
  | elems
  | members

inductive JG : JPiece → List Char → Prop where
  | jnull : JG .val "null".data
  | jtrue : JG .val "true".data
  | jfalse : JG .val "false".data
  | num {s : List Char} : JNumTok s → JG .val s
  | str {k : List Char} : SChars k → JG .val ('"' :: k ++ ['"'])
  | arrEmpty {w : List Char} : JWs w → JG .val ('[' :: w ++ [']'])
  | arr {inner : List Char} : JG .elems inner → JG .val ('[' :: inner ++ [']'])
  | objEmpty {w : List Char} : JWs w → JG .val ('{' :: w ++ ['}'])
  | obj {inner : List Char} : JG .members inner → JG .val ('{' :: inner ++ ['}'])
  | elemsOne {w1 v w2 : List Char} : JWs w1 → JG .val v → JWs w2 →
      JG .elems (w1 ++ v ++ w2)
  | elemsCons {w1 v w2 rest : List Char} : JWs w1 → JG .val v → JWs w2 →
      JG .elems rest → JG .elems (w1 ++ v ++ w2 ++ ',' :: rest)
  | membersOne {w1 k w2 el : List Char} : JWs w1 → SChars k → JWs w2 →
      JG .elems el → JG .members (w1 ++ ('"' :: k ++ ['"']) ++ w2 ++ ':' :: el)
  | membersCons {w1 k w2 el tail : List Char} : JWs w1 → SChars k → JWs w2 →
      JG .elems el → JG .members tail →
      JG .members (w1 ++ ('"' :: k ++ ['"']) ++ w2 ++ ':' :: (el ++ ',' :: tail))

/-! #### Character-class facts -/

theorem SChars_no_nl {k : List Char} (h : SChars k) : ∀ c ∈ k, c ≠ '\n' := by
  induction h with
  | nil => intro c hc; cases hc
  | chr hq hn _ ih =>
    intro c hc
    rcases List.mem_cons.mp hc with rfl | hm
    · exact hn
    · exact ih c hm
  | esc hn _ ih =>
    intro c hc
    rcases List.mem_cons.mp hc with rfl | hm
    · decide
    · rcases List.mem_cons.mp hm with rfl | hm2
      · exact hn
      · exact ih c hm2

theorem jsonWs_isRegexWs {c : Char} (h : jsonWsChar c = true) : isRegexWs c = true := by
  simp only [jsonWsChar, Bool.or_eq_true, beq_iff_eq] at h
  rcases h with ((rfl | rfl) | rfl) | rfl <;> decide

theorem jsonWs_not_tick {c : Char} (h : jsonWsChar c = true) : isTick c = false := by
  simp only [jsonWsChar, Bool.or_eq_true, beq_iff_eq] at h
  rcases h with ((rfl | rfl) | rfl) | rfl <;> decide

theorem digit_ne {c x : Char} (h : c.isDigit = true) (hx : x.isDigit = false) :
    (c == x) = false := by
  cases hcx : c == x
  · rfl
  · rw [beq_iff_eq.mp hcx] at h
    rw [h] at hx
    cases hx

theorem digit_facts {c : Char} (h : c.isDigit = true) :
    isRegexWs c = false ∧ isTick c = false ∧ (c == '\n') = false ∧
    (c == '\'') = false ∧ (c == '"') = false := by
  refine ⟨?_, ?_, ?_, ?_, ?_⟩
  · simp [isRegexWs, digit_ne h (by decide : (' ').isDigit = false),
      digit_ne h (by decide : ('\t').isDigit = false),
      digit_ne h (by decide : ('\n').isDigit = false),
      digit_ne h (by decide : ('\r').isDigit = false),
      digit_ne h (by decide : (Char.ofNat 11).isDigit = false),
      digit_ne h (by decide : (Char.ofNat 12).isDigit = false)]
  · simp [isTick, backtickChar,
      digit_ne h (by decide : (Char.ofNat 96).isDigit = false)]
  · exact digit_ne h (by decide)
  · exact digit_ne h (by decide)
  · exact digit_ne h (by decide)

theorem numChar_not_tick {c : Char} (h : numChar c = true) : isTick c = false := by
  simp only [numChar, Bool.or_eq_true, beq_iff_eq] at h
  rcases h with ((((hd | rfl) | rfl) | rfl) | rfl) | rfl
  · exact (digit_facts hd).2.1
  all_goals decide

/-! #### The grammar never puts a backquote at a line start -/

theorem noTickLS_glue {a b : List Char} (ha : ∀ f, noTickLS f a = true)
    (hb : ∀ f, noTickLS f b = true) : ∀ f, noTickLS f (a ++ b) = true := by
  intro f
  rw [noTickLS_append, ha f, hb (endFlag f a)]
  rfl

theorem wsNoTickLS {w : List Char} (hw : JWs w) : ∀ f, noTickLS f w = true :=
  noTickLS_of_no_tick (fun c hc => jsonWs_not_tick (hw c hc))

theorem strNoTickLS {k : List Char} (hk : SChars k) :
    ∀ f, noTickLS f ('"' :: k ++ ['"']) = true := by
  intro f
  have hnl : ∀ c ∈ k ++ ['"'], c ≠ '\n' := by
    intro c hc
    rcases List.mem_append.mp hc with hm | hm
    · exact SChars_no_nl hk c hm
    · simp only [List.mem_singleton] at hm; subst hm; decide
  have h2 : noTickLS false (k ++ ['"']) = true := noTickLS_of_no_nl hnl
  have t1 : isTick '"' = false := by decide
  have t2 : ('"' == '\n') = false := by decide
  simp [noTickLS, t1, t2, h2]

theorem noTickLS_single {c : Char} (hc : isTick c = false) :
    ∀ f, noTickLS f [c] = true := by
  intro f
  simp [noTickLS, hc]

theorem noTickLS_cons {c : Char} {cs : List Char} (hc : isTick c = false)
    (hcs : ∀ g, noTickLS g cs = true) : ∀ f, noTickLS f (c :: cs) = true := by
  intro f
  simp [noTickLS, hc, hcs]

theorem JG_noTickLS {p : JPiece} {s : List Char} (h : JG p s) :
    ∀ f, noTickLS f s = true := by
  induction h with
  | jnull => exact noTickLS_of_no_tick (by decide)
  | jtrue => exact noTickLS_of_no_tick (by decide)
  | jfalse => exact noTickLS_of_no_tick (by decide)
  | num hn => exact noTickLS_of_no_tick (fun c hc => numChar_not_tick (hn.1 c hc))
  | str hk => exact strNoTickLS hk
  | @arrEmpty w hw =>
    exact noTickLS_cons (by decide)
      (noTickLS_glue (wsNoTickLS hw) (noTickLS_single (by decide)))
  | @arr inner hinner ih =>
    exact noTickLS_cons (by decide)
      (noTickLS_glue ih (noTickLS_single (by decide)))
  | @objEmpty w hw =>
    exact noTickLS_cons (by decide)
      (noTickLS_glue (wsNoTickLS hw) (noTickLS_single (by decide)))
  | @obj inner hinner ih =>
    exact noTickLS_cons (by decide)
      (noTickLS_glue ih (noTickLS_single (by decide)))
  | elemsOne hw1 hv hw2 ihv =>
    exact noTickLS_glue (noTickLS_glue (wsNoTickLS hw1) ihv) (wsNoTickLS hw2)
  | elemsCons hw1 hv hw2 hrest ihv ihrest =>
    exact noTickLS_glue
      (noTickLS_glue (noTickLS_glue (wsNoTickLS hw1) ihv) (wsNoTickLS hw2))
      (noTickLS_cons (by decide) ihrest)
  | membersOne hw1 hk hw2 hel ihel =>
    exact noTickLS_glue
      (noTickLS_glue (noTickLS_glue (wsNoTickLS hw1) (strNoTickLS hk)) (wsNoTickLS hw2))
      (noTickLS_cons (by decide) ihel)
  | membersCons hw1 hk hw2 hel htail ihel ihtail =>
    exact noTickLS_glue
      (noTickLS_glue (noTickLS_glue (wsNoTickLS hw1) (strNoTickLS hk)) (wsNoTickLS hw2))
      (noTickLS_cons (by decide)
        (noTickLS_glue ihel (noTickLS_cons (by decide) ihtail)))

/-! #### Every backquote the grammar admits is inside a string literal,
hence a non-whitespace character (at the latest, the closing quote)
follows it before the next newline. -/

theorem ticksBlocked_single {c : Char} (hc : isTick c = false) :
    ticksBlocked [c] = true := by
  simp [ticksBlocked, hc]

theorem ticksBlocked_cons {c : Char} {cs : List Char} (hc : isTick c = false)
    (hcs : ticksBlocked cs = true) : ticksBlocked (c :: cs) = true := by
  simp [ticksBlocked, hc, hcs]

theorem wsTicksBlocked {w : List Char} (hw : JWs w) : ticksBlocked w = true :=
  ticksBlocked_of_no_tick (fun c hc => jsonWs_not_tick (hw c hc))

theorem blockedEol_to_quote {l : List Char} (h : ∀ c ∈ l, c ≠ '\n') (b : List Char) :
    blockedEol (l ++ '"' :: b) = true := by
  induction l with
  | nil =>
    have h1 : ('"' == '\n') = false := by decide
    have h2 : isRegexWs '"' = false := by decide
    simp [blockedEol, h1, h2]
  | cons c cs ih =>
    have hc : (c == '\n') = false := by
      simp [h c (List.mem_cons_self _ _)]
    by_cases hws : isRegexWs c = true
    · simp [blockedEol, hc, hws, ih (fun x hx => h x (List.mem_cons_of_mem _ hx))]
    · simp [blockedEol, hc, hws]

theorem ticksBlocked_str_body : ∀ (k : List Char), (∀ c ∈ k, c ≠ '\n') →
    ticksBlocked (k ++ ['"']) = true := by
  intro k
  induction k with
  | nil => intro _; decide
  | cons c cs ih =>
    intro h
    have hcs := ih (fun x hx => h x (List.mem_cons_of_mem _ hx))
    simp only [List.cons_append, ticksBlocked, Bool.and_eq_true]
    refine ⟨?_, hcs⟩
    by_cases htc : isTick c = true
    · have hb : blockedEol (cs ++ '"' :: []) = true :=
        blockedEol_to_quote (fun x hx => h x (List.mem_cons_of_mem _ hx)) []
      simp only [List.append_nil] at hb
      simp [hb]
    · simp only [Bool.not_eq_true] at htc
      simp [htc]

theorem strTicksBlocked {k : List Char} (hk : SChars k) :
    ticksBlocked ('"' :: k ++ ['"']) = true :=
  ticksBlocked_cons (by decide) (ticksBlocked_str_body k (SChars_no_nl hk))

theorem JG_ticksBlocked {p : JPiece} {s : List Char} (h : JG p s) :
    ticksBlocked s = true := by
  induction h with
  | jnull => decide
  | jtrue => decide
  | jfalse => decide
  | num hn => exact ticksBlocked_of_no_tick (fun c hc => numChar_not_tick (hn.1 c hc))
  | str hk => exact strTicksBlocked hk
  | @arrEmpty w hw =>
    exact ticksBlocked_cons (by decide)
      (ticksBlocked_append (wsTicksBlocked hw) (ticksBlocked_single (by decide)))
  | @arr inner hinner ih =>
    exact ticksBlocked_cons (by decide)
      (ticksBlocked_append ih (ticksBlocked_single (by decide)))
  | @objEmpty w hw =>
    exact ticksBlocked_cons (by decide)
      (ticksBlocked_append (wsTicksBlocked hw) (ticksBlocked_single (by decide)))
  | @obj inner hinner ih =>
    exact ticksBlocked_cons (by decide)
      (ticksBlocked_append ih (ticksBlocked_single (by decide)))
  | elemsOne hw1 hv hw2 ihv =>
    exact ticksBlocked_append (ticksBlocked_append (wsTicksBlocked hw1) ihv)
      (wsTicksBlocked hw2)
  | elemsCons hw1 hv hw2 hrest ihv ihrest =>
    exact ticksBlocked_append
      (ticksBlocked_append (ticksBlocked_append (wsTicksBlocked hw1) ihv)
        (wsTicksBlocked hw2))
      (ticksBlocked_cons (by decide) ihrest)
  | membersOne hw1 hk hw2 hel ihel =>
    exact ticksBlocked_append
      (ticksBlocked_append (ticksBlocked_append (wsTicksBlocked hw1)
        (strTicksBlocked hk)) (wsTicksBlocked hw2))
      (ticksBlocked_cons (by decide) ihel)
  | membersCons hw1 hk hw2 hel htail ihel ihtail =>
    exact ticksBlocked_append
      (ticksBlocked_append (ticksBlocked_append (wsTicksBlocked hw1)
        (strTicksBlocked hk)) (wsTicksBlocked hw2))
      (ticksBlocked_cons (by decide)
        (ticksBlocked_append ihel (ticksBlocked_cons (by decide) ihtail)))

/-! #### First and last characters of a value text -/

def isStartChar (c : Char) : Bool :=
  c == '{' || c == '[' || c == '"' || c == 't' || c == 'f' || c == 'n' ||
  c == '-' || c.isDigit

def isEndChar (c : Char) : Bool :=
  c == '}' || c == ']' || c == '"' || c == 'l' || c == 'e' || c.isDigit

theorem JG_val_head {v : List Char} (h : JG .val v) :
    ∃ c, v.head? = some c ∧ isStartChar c = true := by
  cases h with
  | jnull => exact ⟨'n', by decide, by decide⟩
  | jtrue => exact ⟨'t', by decide, by decide⟩
  | jfalse => exact ⟨'f', by decide, by decide⟩
  | num hn =>
    obtain ⟨c, hc, hd⟩ := hn.2.1
    refine ⟨c, hc, ?_⟩
    rcases hd with hd | rfl
    · simp [isStartChar, hd]
    · decide
  | str hk => exact ⟨'"', rfl, by decide⟩
  | arrEmpty hw => exact ⟨'[', rfl, by decide⟩
  | arr hi => exact ⟨'[', rfl, by decide⟩
  | objEmpty hw => exact ⟨'{', rfl, by decide⟩
  | obj hi => exact ⟨'{', rfl, by decide⟩

theorem JG_val_last {v : List Char} (h : JG .val v) :
    ∃ c, v.getLast? = some c ∧ isEndChar c = true := by
  cases h with
  | jnull => exact ⟨'l', by decide, by decide⟩
  | jtrue => exact ⟨'e', by decide, by decide⟩
  | jfalse => exact ⟨'e', by decide, by decide⟩
  | num hn =>
    obtain ⟨c, hc, hd⟩ := hn.2.2
    exact ⟨c, hc, by simp [isEndChar, hd]⟩
  | @str k hk =>
    refine ⟨'"', ?_, by decide⟩
    rw [show ('"' :: k ++ ['"']) = ('"' :: k) ++ ['"'] from rfl,
      List.getLast?_concat]
  | @arrEmpty w hw =>
    refine ⟨']', ?_, by decide⟩
    rw [show ('[' :: w ++ [']']) = ('[' :: w) ++ [']'] from rfl,
      List.getLast?_concat]
  | @arr inner hi =>
    refine ⟨']', ?_, by decide⟩
    rw [show ('[' :: inner ++ [']']) = ('[' :: inner) ++ [']'] from rfl,
      List.getLast?_concat]
  | @objEmpty w hw =>
    refine ⟨'}', ?_, by decide⟩
    rw [show ('{' :: w ++ ['}']) = ('{' :: w) ++ ['}'] from rfl,
      List.getLast?_concat]
  | @obj inner hi =>
    refine ⟨'}', ?_, by decide⟩
    rw [show ('{' :: inner ++ ['}']) = ('{' :: inner) ++ ['}'] from rfl,
      List.getLast?_concat]

theorem isStartChar_facts {c : Char} (h : isStartChar c = true) :
    isRegexWs c = false ∧ isTick c = false ∧ (c == '\'') = false := by
  simp only [isStartChar, Bool.or_eq_true, beq_iff_eq] at h
  rcases h with ((((((rfl | rfl) | rfl) | rfl) | rfl) | rfl) | rfl) | hd
  · exact ⟨by decide, by decide, by decide⟩
  · exact ⟨by decide, by decide, by decide⟩
  · exact ⟨by decide, by decide, by decide⟩
  · exact ⟨by decide, by decide, by decide⟩
  · exact ⟨by decide, by decide, by decide⟩
  · exact ⟨by decide, by decide, by decide⟩
  · exact ⟨by decide, by decide, by decide⟩
  · exact ⟨(digit_facts hd).1, (digit_facts hd).2.1, (digit_facts hd).2.2.2.1⟩

theorem isEndChar_facts {c : Char} (h : isEndChar c = true) :
    isRegexWs c = false ∧ isTick c = false ∧ (c == '\n') = false := by
  simp only [isEndChar, Bool.or_eq_true, beq_iff_eq] at h
  rcases h with ((((rfl | rfl) | rfl) | rfl) | rfl) | hd
  · exact ⟨by decide, by decide, by decide⟩
  · exact ⟨by decide, by decide, by decide⟩
  · exact ⟨by decide, by decide, by decide⟩
  · exact ⟨by decide, by decide, by decide⟩
  · exact ⟨by decide, by decide, by decide⟩
  · exact ⟨(digit_facts hd).1, (digit_facts hd).2.1, (digit_facts hd).2.2.1⟩

/-! #### The sanitizer on valid JSON -/

theorem clean_eq {text : List Char} (h : text.isEmpty = false) :
    clean_json_response text =
      stripWs (quoteStrip (stripWs (stripTicks (stripWs
        (sub2go (sub1go text.length true text).length
          (sub1go text.length true text)))))) := by
  unfold clean_json_response
  rw [if_neg (by simp [h])]

theorem JG_val_ne_nil {v : List Char} (hv : JG .val v) : v ≠ [] := by
  obtain ⟨c, hc, -⟩ := JG_val_head hv
  intro h
  rw [h] at hc
  cases hc

theorem quoteStrip_id_of_head {v : List Char} {hc : Char}
    (hhd : v.head? = some hc) (hq1 : (hc == '\'') = false)
    (hq2 : ¬(v.head? = some '"' ∧ (v.get? 1 = some '{' ∨ v.get? 1 = some '['))) :
    quoteStrip v = v := by
  unfold quoteStrip
  have hne1 : ¬(v.head? = some '\'' ∧ v.getLast? = some '\'') := by
    intro hcontra
    rw [hhd] at hcontra
    have : hc = '\'' := by
      have := hcontra.1
      injection this
    rw [this] at hq1
    simp at hq1
  rw [if_neg hne1]
  by_cases hdq : v.head? = some '"' ∧ v.getLast? = some '"'
  · rw [if_pos hdq, if_neg]
    intro hcontra
    exact hq2 ⟨hdq.1, hcontra.2⟩
  · rw [if_neg hdq]

/-- Case (a): a plain valid JSON text is returned trimmed and otherwise
unchanged, provided its trimmed form is not a top-level string literal
whose body starts with `{` or `[`. -/
theorem clean_of_jtext {w1 v w2 : List Char} (hw1 : JWs w1) (hv : JG .val v)
    (hw2 : JWs w2)
    (hq : ¬(v.head? = some '"' ∧ (v.get? 1 = some '{' ∨ v.get? 1 = some '['))) :
    clean_json_response (w1 ++ v ++ w2) = v ∧ stripWs (w1 ++ v ++ w2) = v := by
  obtain ⟨hc, hhd, hsc⟩ := JG_val_head hv
  obtain ⟨lc, hlast, hec⟩ := JG_val_last hv
  have hw1' : ∀ c ∈ w1, isRegexWs c = true := fun c hcm => jsonWs_isRegexWs (hw1 c hcm)
  have hw2' : ∀ c ∈ w2, isRegexWs c = true := fun c hcm => jsonWs_isRegexWs (hw2 c hcm)
  have hstrip : stripWs (w1 ++ v ++ w2) = v :=
    stripWs_sandwich hw1' hw2' hhd (isStartChar_facts hsc).1 hlast (isEndChar_facts hec).1
  refine ⟨?_, hstrip⟩
  have hvne : v ≠ [] := JG_val_ne_nil hv
  have hne : (w1 ++ v ++ w2).isEmpty = false := by
    cases hL : w1 ++ v ++ w2 with
    | nil =>
      exfalso
      rcases List.append_eq_nil.mp hL with ⟨hL1, -⟩
      rcases List.append_eq_nil.mp hL1 with ⟨-, hL2⟩
      exact hvne hL2
    | cons a l => rfl
  rw [clean_eq hne]
  have hnt : noTickLS true (w1 ++ v ++ w2) = true :=
    noTickLS_glue (noTickLS_glue (wsNoTickLS hw1) (JG_noTickLS hv)) (wsNoTickLS hw2) true
  have h1 : sub1go (w1 ++ v ++ w2).length true (w1 ++ v ++ w2) = w1 ++ v ++ w2 :=
    sub1go_id _ _ _ (Nat.le_refl _) hnt
  rw [h1]
  have htb : ticksBlocked (w1 ++ v ++ w2) = true :=
    ticksBlocked_append (ticksBlocked_append (wsTicksBlocked hw1) (JG_ticksBlocked hv))
      (wsTicksBlocked hw2)
  rw [sub2go_id _ _ (Nat.le_refl _) htb, hstrip]
  have hid1 : stripTicks v = v :=
    dropEdge_id hhd (isStartChar_facts hsc).2.1 hlast (isEndChar_facts hec).2.1
  have hid2 : stripWs v = v :=
    dropEdge_id hhd (isStartChar_facts hsc).1 hlast (isEndChar_facts hec).1
  rw [hid1, hid2, quoteStrip_id_of_head hhd (isStartChar_facts hsc).2.2 hq, hid2]

theorem matchFence_json_prefix {r r' : List Char} (hr : r = '{' :: r') :
    matchFence ("```json\n".data ++ r) = some (r, true) := by
  subst hr
  rfl

theorem sub1go_step_match {fuel : Nat} {s rest : List Char} {nl : Bool}
    (h : matchFence s = some (rest, nl)) (hne : s ≠ []) :
    sub1go (fuel + 1) true s = sub1go fuel nl rest := by
  cases s with
  | nil => exact absurd rfl hne
  | cons c cs => simp [sub1go, h]

/-- Case (b): a valid JSON object text wrapped in a fenced code block
with the `json` language tag is returned unwrapped. -/
theorem clean_fenced {v : List Char} (hv : JG .val v) (hobj : v.head? = some '{') :
    clean_json_response ("```json\n".data ++ v ++ "\n```".data) = v := by
  obtain ⟨v1, rfl⟩ : ∃ v1, v = '{' :: v1 := by
    cases v with
    | nil => cases hobj
    | cons c cs =>
      have : c = '{' := by injection hobj
      exact ⟨cs, by rw [this]⟩
  obtain ⟨lc, hlast, hec⟩ := JG_val_last hv
  set v := '{' :: v1 with hvdef
  have hne : ("```json\n".data ++ v ++ "\n```".data).isEmpty = false := rfl
  rw [clean_eq hne]
  have hassoc : "```json\n".data ++ v ++ "\n```".data =
      "```json\n".data ++ (v ++ "\n```".data) := by
    rw [List.append_assoc]
  have hlenW : ("```json\n".data ++ v ++ "\n```".data).length = v.length + 11 + 1 := by
    simp [List.length_append]
  have hfence : matchFence ("```json\n".data ++ (v ++ "\n```".data)) =
      some (v ++ "\n```".data, true) :=
    matchFence_json_prefix rfl
  have hstep : sub1go ("```json\n".data ++ v ++ "\n```".data).length true
      ("```json\n".data ++ v ++ "\n```".data) =
      sub1go (v.length + 11) true (v ++ "\n```".data) := by
    rw [hlenW, hassoc]
    exact sub1go_step_match hfence (by simp)
  have happ : sub1go (v.length + 11) true (v ++ "\n```".data) =
      v ++ sub1go 11 (endFlag true v) "\n```".data := by
    have h2 := sub1go_append v (v.length + 11) true "\n```".data
      (by simp [List.length_append]) (JG_noTickLS hv true)
    rw [show v.length + 11 - v.length = 11 from by omega] at h2
    exact h2
  have hflag : endFlag true v = false := by
    rw [endFlag_of_getLast v lc hlast]
    exact (isEndChar_facts hec).2.2
  have htail : sub1go 11 false "\n```".data = ['\n'] := by decide
  have h1 : sub1go ("```json\n".data ++ v ++ "\n```".data).length true
      ("```json\n".data ++ v ++ "\n```".data) = v ++ ['\n'] := by
    rw [hstep, happ, hflag, htail]
  rw [h1]
  have htb : ticksBlocked (v ++ ['\n']) = true :=
    ticksBlocked_append (JG_ticksBlocked hv) (by decide)
  rw [sub2go_id _ _ (Nat.le_refl _) htb]
  have hsc : isStartChar '{' = true := by decide
  have hhd : v.head? = some '{' := rfl
  have hstrip : stripWs (v ++ ['\n']) = v := by
    have hs := @stripWs_sandwich [] v ['\n'] '{' lc
      (by intro c hcm; cases hcm) (by intro c hcm; simp at hcm; subst hcm; decide)
      hhd (by decide) hlast (isEndChar_facts hec).1
    simpa using hs
  rw [hstrip]
  have hid1 : stripTicks v = v :=
    dropEdge_id hhd (by decide) hlast (isEndChar_facts hec).2.1
  have hid2 : stripWs v = v :=
    dropEdge_id hhd (by decide) hlast (isEndChar_facts hec).1
  rw [hid1, hid2, quoteStrip_id_of_head hhd (by decide)
    (by intro hcontra; rw [hhd] at hcontra; injection hcontra.1 with he; cases he),
    hid2]

/-- Case (c): a valid JSON object text wrapped in one layer of matching
quotes is returned unwrapped. -/
theorem clean_quoted {v : List Char} (hv : JG .val v) (hobj : v.head? = some '{')
    (q : Char) (hq : q = '\'' ∨ q = '"') :
    clean_json_response (q :: (v ++ [q])) = v := by
  obtain ⟨v1, rfl⟩ : ∃ v1, v = '{' :: v1 := by
    cases v with
    | nil => cases hobj
    | cons c cs =>
      have : c = '{' := by injection hobj
      exact ⟨cs, by rw [this]⟩
  obtain ⟨lc, hlast, hec⟩ := JG_val_last hv
  set v := '{' :: v1 with hvdef
  have hqt : isTick q = false := by rcases hq with rfl | rfl <;> decide
  have hqw : isRegexWs q = false := by rcases hq with rfl | rfl <;> decide
  have hqnl : (q == '\n') = false := by rcases hq with rfl | rfl <;> decide
  have hne : (q :: (v ++ [q])).isEmpty = false := rfl
  rw [clean_eq hne]
  have hnt : noTickLS true (q :: (v ++ [q])) = true :=
    noTickLS_cons hqt (noTickLS_glue (JG_noTickLS hv) (noTickLS_single hqt)) true
  rw [sub1go_id _ _ _ (Nat.le_refl _) hnt]
  have htb : ticksBlocked (q :: (v ++ [q])) = true :=
    ticksBlocked_cons hqt
      (ticksBlocked_append (JG_ticksBlocked hv) (ticksBlocked_single hqt))
  rw [sub2go_id _ _ (Nat.le_refl _) htb]
  have hWhd : (q :: (v ++ [q])).head? = some q := rfl
  have hWlast : (q :: (v ++ [q])).getLast? = some q := by
    rw [show (q :: (v ++ [q])) = (q :: v) ++ [q] from rfl, List.getLast?_concat]
  have hid0 : stripWs (q :: (v ++ [q])) = q :: (v ++ [q]) :=
    dropEdge_id hWhd hqw hWlast hqw
  have hidt : stripTicks (q :: (v ++ [q])) = q :: (v ++ [q]) :=
    dropEdge_id hWhd hqt hWlast hqt
  rw [hid0, hidt, hid0]
  have hget1 : (q :: (v ++ [q])).get? 1 = some '{' := rfl
  have hlen : 2 < (q :: (v ++ [q])).length := by
    rw [hvdef]
    simp [List.length_append]
  have hquote : quoteStrip (q :: (v ++ [q])) = v := by
    unfold quoteStrip
    rcases hq with rfl | rfl
    · rw [if_pos ⟨hWhd, hWlast⟩, if_pos ⟨hlen, Or.inl hget1⟩]
      rw [show ((('\'' :: (v ++ ['\''])).drop 1)) = v ++ ['\''] from rfl,
        List.dropLast_concat]
    · rw [if_neg (by intro hcontra; injection hcontra.1 with he; cases he),
        if_pos ⟨hWhd, hWlast⟩, if_pos ⟨hlen, Or.inl hget1⟩]
      rw [show ((('"' :: (v ++ ['"'])).drop 1)) = v ++ ['"'] from rfl,
        List.dropLast_concat]
  rw [hquote]
  exact dropEdge_id (show v.head? = some '{' from rfl) (by decide)
    hlast (isEndChar_facts hec).1

/-- C2 as stated is false on two counts, shown at concrete inputs:
(1) the valid JSON text `"{}"` — a top-level string literal whose body
starts with `{` — is altered by the quote-unwrapping heuristic (the
sanitizer returns `{}`, not the trimmed original); (2) a JSON object
wrapped in a fenced code block with a language tag other than `json`
(here `md`) is not unwrapped to the original object text. -/
theorem c2_sanitizer_counterexample :
    clean_json_response "\"{}\"".data = "{}".data
    ∧ stripWs "\"{}\"".data = "\"{}\"".data
    ∧ "{}".data ≠ "\"{}\"".data
    ∧ JG .val ("\"{}\"".data)
    ∧ clean_json_response "```md\n{}\n```".data = "md\n{}".data
    ∧ "md\n{}".data ≠ "{}".data
    ∧ JG .val ("{}".data) := by
  refine ⟨by decide, by decide, by decide, ?_, by decide, by decide, ?_⟩
  · exact JG.str (SChars.chr (by decide) (by decide)
      (SChars.chr (by decide) (by decide) SChars.nil))
  · exact JG.objEmpty (fun c hc => absurd hc (List.not_mem_nil c))

/-- C2 amended: over the full JSON grammar (`JG .val` derives every
valid JSON value text), (a) a plain valid JSON text is returned trimmed
and otherwise unchanged unless its trimmed form is a top-level string
literal whose body starts with `{` or `[` (the quote heuristic then
strips its quotes); (b) a valid JSON object text wrapped in a fenced
code block with the `json` language tag is returned unwrapped; (c) a
valid JSON object text wrapped in one layer of matching single or
double quotes is returned unwrapped. -/
theorem c2_amended_sanitizer :
    (∀ (w1 v w2 : List Char), JWs w1 → JG .val v → JWs w2 →
      ¬(v.head? = some '"' ∧ (v.get? 1 = some '{' ∨ v.get? 1 = some '[')) →
      clean_json_response (w1 ++ v ++ w2) = stripWs (w1 ++ v ++ w2)
      ∧ stripWs (w1 ++ v ++ w2) = v)
    ∧ (∀ (v : List Char), JG .val v → v.head? = some '{' →
      clean_json_response ("```json\n".data ++ v ++ "\n```".data) = v)
    ∧ (∀ (v : List Char) (q : Char), JG .val v → v.head? = some '{' →
      (q = '\'' ∨ q = '"') →
      clean_json_response (q :: (v ++ [q])) = v) := by
  refine ⟨?_, ?_, ?_⟩
  · intro w1 v w2 hw1 hv hw2 hq
    obtain ⟨h1, h2⟩ := clean_of_jtext hw1 hv hw2 hq
    exact ⟨by rw [h1, h2], h2⟩
  · intro v hv hobj
    exact clean_fenced hv hobj
  · intro v q hv hobj hq
    exact clean_quoted hv hobj q hq

/-- Concrete instantiation of `c2_amended_sanitizer` at the JSON object
text `\x7b\x7d` (and, for the plain case, with surrounding whitespace). -/
theorem c2_amended_sanitizer_witness :
    (clean_json_response (" ".data ++ "{}".data ++ "\n".data) =
        stripWs (" ".data ++ "{}".data ++ "\n".data)
      ∧ stripWs (" ".data ++ "{}".data ++ "\n".data) = "{}".data)
    ∧ clean_json_response ("```json\n".data ++ "{}".data ++ "\n```".data) =
        "{}".data
    ∧ clean_json_response ('\'' :: ("{}".data ++ ['\''])) = "{}".data := by
  have hobj : JG .val ("{}".data) :=
    JG.objEmpty (fun c hc => absurd hc (List.not_mem_nil c))
  refine ⟨(c2_amended_sanitizer.1 " ".data "{}".data "\n".data
      (by intro c hc; simp at hc; subst hc; decide) hobj
      (by intro c hc; simp at hc; subst hc; decide) (by decide)),
    c2_amended_sanitizer.2.1 "{}".data hobj rfl,
    c2_amended_sanitizer.2.2 "{}".data '\'' hobj rfl (Or.inl rfl)⟩

end FastMatch
